import Mathlib

namespace IpCam

/-!
Verification development for the ip-cam-monitor repository.

Shallow embedding of the alarm-photo pipeline:
* `hybridDecision` — the tier-selection logic of
  `extract_alarm_photo_hybrid` (src/alarm_hybrid_extractor.py);
* `_download_with_retries` — the retry policy of the archive downloader
  (src/alarm_hybrid_extractor.py), with the network download abstracted
  as an oracle from attempt number to result;
* `_pick_closest_file` — the nearest-index-row picker
  (src/alarm_hybrid_extractor.py);
* the event-index scanner loop (src/alarm_index.py);
* the wire-codec pack/recv functions and the tagged-block demuxer
  (src/alarm_photo_extractor.py), with MD5 implemented concretely;
* the poll-loop new-marker dispatch logic (src/alarm_polling.py).

Bytes are modelled as `Nat` values (< 256 where produced by packing),
timestamps as `Int` seconds (the `datetime` values handled by the code are
totally ordered and differ by whole seconds), and the partial
`_parse_dt : str -> datetime | None` as an abstract `String → Option Int`
parameter.  Floats compared by the code (bottom-white ratios, thresholds)
are modelled as `ℚ`.
-/

/-! ### Hybrid extraction decision (src/alarm_hybrid_extractor.py, lines 287-394)

`extract_alarm_photo_hybrid` runs the photo-marker ("idea1") tier, then the
motion-clip fallback tier, then decides.  The network/decoding work of each
tier is abstracted into its outcome: `idea1_jpeg` is the JPEG produced by the
photo-marker tier (`none` when that tier decoded no frame), `bw` is the
bottom-white ratio computed for it (`none` when unavailable), and
`motion_jpeg` is the JPEG the motion fallback tier yields when it runs.
-/

structure HybridMeta where
  ok : Bool
  reason : String
  chosen : Option String
deriving DecidableEq, Repr

/-- Acceptance test for the idea1 tier:
`if (bw is not None) and (float(bw) < float(bottom_white_threshold))`. -/
def acceptIdea1 (idea1_jpeg : Option (List Nat)) (bw : Option ℚ) (thr : ℚ) : Bool :=
  match idea1_jpeg, bw with
  | some _, some r => decide (r < thr)
  | _, _ => false

/-- Decision tail of `extract_alarm_photo_hybrid` (lines 288-394):
accept idea1 when its bottom-white ratio is below the threshold, otherwise
fall back to the motion clip, otherwise return the (corrupted) idea1 frame,
otherwise report `no_photo`. -/
def hybridDecision (idea1_jpeg : Option (List Nat)) (bw : Option ℚ)
    (motion_jpeg : Option (List Nat)) (thr : ℚ) : Option (List Nat) × HybridMeta :=
  if acceptIdea1 idea1_jpeg bw thr then (idea1_jpeg, ⟨true, "ok", some "idea1"⟩)
  else
    match motion_jpeg with
    | some m => (some m, ⟨true, "ok_fallback_motion", some "motion"⟩)
    | none =>
      match idea1_jpeg with
      | some j => (some j, ⟨true, "ok_but_bottom_white", some "idea1"⟩)
      | none => (none, ⟨false, "no_photo", none⟩)

/-! ### Download retries (src/alarm_hybrid_extractor.py, lines 122-166)

`_download_with_retries` computes `tries = max(1, int(retries))` and runs
`for attempt in range(1, tries + 1)`, returning the first successful
download and re-raising the last error after the final attempt.  The
network call is abstracted as `oracle : Nat → Except E A` giving each
attempt's outcome.  `runAttempts oracle attempt n` runs attempts
`attempt, attempt+1, ..., attempt+n` (so `n` further attempts remain after
the current one). -/

def runAttempts (oracle : Nat → Except E A) (attempt : Nat) : Nat → Except E A
  | 0 => oracle attempt
  | n + 1 =>
    match oracle attempt with
    | .ok a => .ok a
    | .error _ => runAttempts oracle (attempt + 1) n

def _download_with_retries (oracle : Nat → Except E A) (retries : Nat) : Except E A :=
  runAttempts oracle 1 (max 1 retries - 1)

/-- Oracle for the C3 counterexample: a transient reset on the first two
attempts, success on the third. -/
def transientOracle : Nat → Except String (List Nat) :=
  fun n => if n ≤ 2 then .error "connection reset" else .ok [222, 173]

/-- Oracle for the C3 witness: transient failure on the first attempt,
success on the second. -/
def recoverOracle : Nat → Except String (List Nat) :=
  fun n => if n = 1 then .error "timeout" else .ok [1, 2, 3]

/-! ### Closest-file picker (src/alarm_hybrid_extractor.py, lines 103-119)

An index-query row carries `FileName`, `BeginTime`, `EndTime` string
fields.  `_parse_dt` is modelled as an abstract `p : String → Option Int`
(timestamps in seconds; `none` is a failed parse). -/

structure QRow where
  fileName : String
  beginTime : String
  endTime : String
deriving DecidableEq, Repr

/-- The sort key built per row: `(0 if in_range else 1, |bt - target|)`. -/
def keyOf (p : String → Option Int) (target bt : Int) (r : QRow) : Nat × Int :=
  let inRange : Bool :=
    match p r.endTime with
    | some et => decide (bt ≤ target ∧ target ≤ et)
    | none => false
  (if inRange then 0 else 1, |bt - target|)

/-- Python tuple comparison `key < best_key` (strict lexicographic). -/
def keyLt (a b : Nat × Int) : Bool :=
  a.1 < b.1 || (a.1 = b.1 && a.2 < b.2)

/-- The accumulator loop of `_pick_closest_file`: keep the first row whose
key is strictly smaller than the current best key. -/
def pickLoop (p : String → Option Int) (target : Int) :
    List QRow → Option (QRow × (Nat × Int)) → Option (QRow × (Nat × Int))
  | [], best => best
  | r :: rest, best =>
    match p r.beginTime with
    | none => pickLoop p target rest best
    | some bt =>
      let key := keyOf p target bt r
      match best with
      | none => pickLoop p target rest (some (r, key))
      | some (b, bk) =>
        if keyLt key bk then pickLoop p target rest (some (r, key))
        else pickLoop p target rest (some (b, bk))

def _pick_closest_file (p : String → Option Int) (rows : List QRow) (target : Int) :
    Option QRow :=
  (pickLoop p target rows none).map Prod.fst

/-- A row `r` with key `key` challenges the winner of the rest of the
list: the later winner survives only when its key is strictly smaller. -/
def challengeRow (r : QRow) (key : Nat × Int) :
    Option (QRow × (Nat × Int)) → Option (QRow × (Nat × Int))
  | none => some (r, key)
  | some (b, bk) => if keyLt bk key then some (b, bk) else some (r, key)

/-- Reference selection, following the claim's words: the first row (among
those whose `BeginTime` parses) attaining the lexicographically minimal
key. -/
def firstMinRow (p : String → Option Int) (target : Int) :
    List QRow → Option (QRow × (Nat × Int))
  | [] => none
  | r :: rest =>
    match p r.beginTime with
    | none => firstMinRow p target rest
    | some bt => challengeRow r (keyOf p target bt r) (firstMinRow p target rest)

/-- Merging a loop accumulator with the winner of the remaining rows:
the remaining winner survives only when strictly smaller. -/
def mergeBest (acc : QRow × (Nat × Int)) :
    Option (QRow × (Nat × Int)) → Option (QRow × (Nat × Int))
  | none => some acc
  | some (b, k) => if keyLt k acc.2 then some (b, k) else some acc

/-- Concrete parse map for the C4 scenario (seconds within the day). -/
def pScen : String → Option Int := fun s =>
  List.lookup s
    [("2024-06-01 10:00:05", (36005 : Int)), ("2024-06-01 10:00:09", 36009),
     ("2024-06-01 10:00:12", 36012), ("2024-06-01 10:05:00", 36300),
     ("2024-06-01 10:05:10", 36310)]

def scenRow1 : QRow := ⟨"/idea1/a.jpg", "2024-06-01 10:00:05", ""⟩

def scenRow2 : QRow := ⟨"/idea1/b.jpg", "2024-06-01 10:00:09", "2024-06-01 10:00:12"⟩

def scenRow3 : QRow := ⟨"/idea1/c.jpg", "2024-06-01 10:05:00", "2024-06-01 10:05:10"⟩

/-! ### Event-index scanner (src/alarm_index.py, lines 74-170)

`fetch_recent_alarm_markers` walks a cursor backward from `end_dt` in
windows of `chunk` seconds.  The camera exchange `opfilequery` is
abstracted as `query : Int → Int → List QRow` (begin, end ↦ rows), and
`_parse_dt` as `p : String → Option Int` as above.  Durations are `Nat`
seconds, instants `Int` seconds. -/

structure NRow where
  fileName : String
  beginTime : String
  endTime : String
  dt : Int
deriving DecidableEq, Repr

/-- Sort comparator for `out.sort(key=lambda x: x["__dt"], reverse=True)`:
stable descending by parsed begin time. -/
def descDt (a b : NRow) : Bool := decide (b.dt ≤ a.dt)

/-- `normalize_rows`: drop rows whose `BeginTime` fails to parse, attach
the parsed time, and stable-sort descending by it. -/
def normalize_rows (p : String → Option Int) (rows : List QRow) : List NRow :=
  (rows.filterMap fun r => (p r.beginTime).map fun bt =>
      ({ fileName := r.fileName, beginTime := r.beginTime,
         endTime := r.endTime, dt := bt } : NRow)).mergeSort descDt

/-- Deduplication key `f"{FileName}|{BeginTime}"`. -/
def dedupKey (r : NRow) : String := r.fileName ++ "|" ++ r.beginTime

/-- One row of the dedup-append loop: `if key in seen: continue;
seen.add(key); collected.append(r)`. -/
def dedupStep (acc : List String × List NRow) (r : NRow) : List String × List NRow :=
  if dedupKey r ∈ acc.1 then acc else (dedupKey r :: acc.1, acc.2 ++ [r])

def dedupInto (acc : List String × List NRow) (norm : List NRow) :
    List String × List NRow :=
  norm.foldl dedupStep acc

/-- Mutable loop state of the scanner: cursor end time, window width in
seconds, collected rows, seen dedup keys. -/
structure ScanSt where
  cursorEnd : Int
  chunk : Nat
  collected : List NRow
  seen : List String
deriving Repr

/-- One iteration of the scanner's `while` body (src/alarm_index.py,
lines 119-155): query `[max(oldest, cursor-chunk), cursor]`; on hitting
the cap guard with the window still above the minimum, halve the window
(floored at the minimum) and retry the same cursor; otherwise
dedup-append the normalized rows, move the cursor to the window's begin,
and double the window (capped at 4 h) if the chunk was sparse. -/
def scanStep (query : Int → Int → List QRow) (p : String → Option Int)
    (oldest : Int) (minChunk capGuard want : Nat) (st : ScanSt) : ScanSt :=
  let beginDt := max oldest (st.cursorEnd - (st.chunk : Int))
  let rows := query beginDt st.cursorEnd
  if capGuard ≤ rows.length ∧ minChunk < st.chunk then
    { st with chunk := max minChunk (st.chunk / 2) }
  else
    let acc := dedupInto (st.seen, st.collected) (normalize_rows p rows)
    { cursorEnd := beginDt,
      chunk := if rows.length < max 1 (want / 3) then min 14400 (st.chunk * 2)
               else st.chunk,
      collected := acc.2, seen := acc.1 }

def scanStep_chunk_pos {query p oldest minChunk capGuard want st}
    (hmin : 0 < minChunk) (hc : 0 < st.chunk) :
    0 < (scanStep query p oldest minChunk capGuard want st).chunk := by
  simp only [scanStep]
  split
  · simpa using Or.inl hmin
  · split <;> simp <;> omega

def scanStep_measure {query p oldest minChunk capGuard want st}
    (hmin : 0 < minChunk) (hc : 0 < st.chunk) (hcur : oldest < st.cursorEnd) :
    Prod.Lex (· < ·) (· < ·)
      ((((scanStep query p oldest minChunk capGuard want st).cursorEnd - oldest).toNat,
        (scanStep query p oldest minChunk capGuard want st).chunk))
      (((st.cursorEnd - oldest).toNat, st.chunk)) := by
  simp only [scanStep]
  split
  · rename_i hcap
    dsimp only
    exact Prod.Lex.right _ (by omega)
  · dsimp only
    have h1 : oldest ≤ max oldest (st.cursorEnd - (st.chunk : Int)) := le_max_left _ _
    have h2 : max oldest (st.cursorEnd - (st.chunk : Int)) < st.cursorEnd :=
      max_lt hcur (by omega)
    apply Prod.Lex.left
    omega

/-- The scanner's `while cursor_end > oldest_allowed and len(collected) <
want` loop.  The positivity side conditions record invariants guaranteed
by the enclosing function (`max(1, ...)` clamps). -/
def scanLoop (query : Int → Int → List QRow) (p : String → Option Int)
    (oldest : Int) (minChunk capGuard want : Nat) (hmin : 0 < minChunk) :
    (st : ScanSt) → 0 < st.chunk → List NRow × List String
  | st, hc =>
    if oldest < st.cursorEnd ∧ st.collected.length < want then
      scanLoop query p oldest minChunk capGuard want hmin
        (scanStep query p oldest minChunk capGuard want st)
        (scanStep_chunk_pos hmin hc)
    else (st.collected, st.seen)
termination_by st _ => ((st.cursorEnd - oldest).toNat, st.chunk)
decreasing_by
  exact scanStep_measure hmin hc (by rename_i h; exact h.1)

/-- `fetch_recent_alarm_markers` (success path, after login): run the
backward scan from `end_dt`, then sort the collected rows descending by
parsed begin time and truncate to `want`. -/
def fetch_recent_alarm_markers (query : Int → Int → List QRow)
    (p : String → Option Int) (end_dt : Int)
    (want maxLookbackHours initialChunkMinutes minChunkSeconds capGuard : Nat) :
    List NRow :=
  let oldest := end_dt - ((max 1 maxLookbackHours : Nat) : Int) * 3600
  let res := scanLoop query p oldest (max 1 minChunkSeconds) capGuard want
    (Nat.lt_of_lt_of_le Nat.one_pos (le_max_left 1 minChunkSeconds))
    ⟨end_dt, (max 1 initialChunkMinutes) * 60, [], []⟩
    (Nat.mul_pos (Nat.lt_of_lt_of_le Nat.one_pos (le_max_left 1 initialChunkMinutes))
      (by omega))
  (res.1.mergeSort descDt).take want

/-- Invariant carried by the scan loop: collected rows have pairwise
distinct dedup keys, all of which have been recorded in `seen`. -/
def ScanInv (st : ScanSt) : Prop :=
  (st.collected.map dedupKey).Nodup ∧ ∀ r ∈ st.collected, dedupKey r ∈ st.seen

/-- Concrete query oracle for the C2 witness: every window returns 60
rows (the observed truncation cap). -/
def capQuery : Int → Int → List QRow :=
  fun _ _ => List.replicate 60 ⟨"/idea1/x.jpg", "2024-06-01 10:00:00", ""⟩

/-- Concrete parse map for the C2 witness (never parses). -/
def pNone : String → Option Int := fun _ => none

/-! ### Wire codec (src/alarm_photo_extractor.py, lines 13-76)

`_HDR_OLD = struct.Struct("BB2xII2xHI")` (native order and alignment:
B B pad pad | I I | pad pad H | I — 20 bytes, no alignment padding needed)
and `_HDR_NEW = struct.Struct("<BBxxIIBBHI")` (explicit little-endian:
B B x x | I I | B B H I — also 20 bytes).  Bytes are `Nat` values < 256;
multi-byte integers are little-endian (the native order of the deployment
platform). -/

def le16 (n : Nat) : List Nat := [n % 256, n / 256 % 256]

def le32 (n : Nat) : List Nat :=
  [n % 256, n / 256 % 256, n / 65536 % 256, n / 16777216 % 256]

/-- The header bytes produced by `_HDR_OLD.pack(magic, res, session, seq,
msgid, plen)`. -/
def hdrOldPack (magic res session seq msgid plen : Nat) : List Nat :=
  [magic % 256, res % 256, 0, 0] ++ le32 session ++ le32 seq
    ++ [0, 0] ++ le16 msgid ++ le32 plen

/-- The header bytes produced by `_HDR_NEW.pack(magic, ver, session, seq,
b1, b2, msgid, plen)`. -/
def hdrNewPack (magic ver session seq b1 b2 msgid plen : Nat) : List Nat :=
  [magic % 256, ver % 256, 0, 0] ++ le32 session ++ le32 seq
    ++ [b1 % 256, b2 % 256] ++ le16 msgid ++ le32 plen

/-- Read a `k`-byte little-endian integer at offset `off`. -/
def rdLE (l : List Nat) (off k : Nat) : Nat :=
  (((l.drop off).take k).reverse).foldl (fun acc b => acc * 256 + b) 0

structure OldMsg where
  sess : Nat
  seq : Nat
  msgid : Nat
  len : Nat
  raw : List Nat
deriving DecidableEq, Repr

/-- `_recv_old_json`: read exactly 20 header bytes, then exactly
`payload length` more bytes; a short read raises (modelled as `none`).
Returns the parsed message and the unconsumed remainder of the input. -/
def _recv_old_json (input : List Nat) : Option (OldMsg × List Nat) :=
  if 20 ≤ input.length then
    let dlen := rdLE input 16 4
    if 20 + dlen ≤ input.length then
      some ({ sess := rdLE input 4 4, seq := rdLE input 8 4,
              msgid := rdLE input 14 2, len := dlen,
              raw := (input.drop 20).take dlen }, input.drop (20 + dlen))
    else none
  else none

structure NewPkt where
  ver : Nat
  sess : Nat
  seq : Nat
  b1 : Nat
  b2 : Nat
  msgid : Nat
  len : Nat
  payload : List Nat
deriving DecidableEq, Repr

/-- `_recv_new_packet`: read exactly `_HDR_NEW.size` header bytes,
validate the magic byte (a bad magic raises — modelled as `none`), then
read exactly `payload length` more bytes. -/
def _recv_new_packet (input : List Nat) : Option (NewPkt × List Nat) :=
  if 20 ≤ input.length then
    if input.getD 0 0 = 0xFF then
      let dlen := rdLE input 16 4
      if 20 + dlen ≤ input.length then
        some ({ ver := input.getD 1 0, sess := rdLE input 4 4,
                seq := rdLE input 8 4, b1 := input.getD 12 0,
                b2 := input.getD 13 0, msgid := rdLE input 14 2,
                len := dlen, payload := (input.drop 20).take dlen },
              input.drop (20 + dlen))
      else none
    else none
  else none

/-! ### Sofia login hash (src/alarm_photo_extractor.py, lines 20-24)

`_sofia_hash` MD5-hashes the UTF-8 password and maps digest byte pairs
through a fixed 62-character alphabet.  MD5 (`hashlib.md5`, a standard
primitive outside this repository) is implemented here concretely over
byte lists, with 32-bit words as `Nat` values reduced mod `2^32`. -/

def w32 (n : Nat) : Nat := n % 4294967296

/-- 32-bit left rotation for `x < 2^32`. -/
def rotl32 (x s : Nat) : Nat := w32 (x * 2 ^ s + x / 2 ^ (32 - s))

/-- The 64 MD5 sine-derived constants. -/
def md5K : List Nat :=
  [0xd76aa478, 0xe8c7b756, 0x242070db, 0xc1bdceee,
   0xf57c0faf, 0x4787c62a, 0xa8304613, 0xfd469501,
   0x698098d8, 0x8b44f7af, 0xffff5bb1, 0x895cd7be,
   0x6b901122, 0xfd987193, 0xa679438e, 0x49b40821,
   0xf61e2562, 0xc040b340, 0x265e5a51, 0xe9b6c7aa,
   0xd62f105d, 0x02441453, 0xd8a1e681, 0xe7d3fbc8,
   0x21e1cde6, 0xc33707d6, 0xf4d50d87, 0x455a14ed,
   0xa9e3e905, 0xfcefa3f8, 0x676f02d9, 0x8d2a4c8a,
   0xfffa3942, 0x8771f681, 0x6d9d6122, 0xfde5380c,
   0xa4beea44, 0x4bdecfa9, 0xf6bb4b60, 0xbebfbc70,
   0x289b7ec6, 0xeaa127fa, 0xd4ef3085, 0x04881d05,
   0xd9d4d039, 0xe6db99e5, 0x1fa27cf8, 0xc4ac5665,
   0xf4292244, 0x432aff97, 0xab9423a7, 0xfc93a039,
   0x655b59c3, 0x8f0ccc92, 0xffeff47d, 0x85845dd1,
   0x6fa87e4f, 0xfe2ce6e0, 0xa3014314, 0x4e0811a1,
   0xf7537e82, 0xbd3af235, 0x2ad7d2bb, 0xeb86d391]

/-- The per-step rotation amounts. -/
def md5S : List Nat :=
  [7, 12, 17, 22, 7, 12, 17, 22, 7, 12, 17, 22, 7, 12, 17, 22,
   5, 9, 14, 20, 5, 9, 14, 20, 5, 9, 14, 20, 5, 9, 14, 20,
   4, 11, 16, 23, 4, 11, 16, 23, 4, 11, 16, 23, 4, 11, 16, 23,
   6, 10, 15, 21, 6, 10, 15, 21, 6, 10, 15, 21, 6, 10, 15, 21]

/-- The nonlinear function of step `i` (complement of `x` within 32 bits
is `2^32 - 1 - x`). -/
def md5F (i b c d : Nat) : Nat :=
  if i < 16 then Nat.lor (Nat.land b c) (Nat.land (4294967295 - b) d)
  else if i < 32 then Nat.lor (Nat.land d b) (Nat.land (4294967295 - d) c)
  else if i < 48 then Nat.xor b (Nat.xor c d)
  else Nat.xor c (Nat.lor b (4294967295 - d))

/-- The message-word index used in step `i`. -/
def md5G (i : Nat) : Nat :=
  if i < 16 then i
  else if i < 32 then (5 * i + 1) % 16
  else if i < 48 then (3 * i + 5) % 16
  else (7 * i) % 16

/-- One of the 64 steps of an MD5 chunk. -/
def md5Round (M : List Nat) (st : Nat × Nat × Nat × Nat) (i : Nat) :
    Nat × Nat × Nat × Nat :=
  let f := w32 (md5F i st.2.1 st.2.2.1 st.2.2.2 + st.1
    + md5K.getD i 0 + M.getD (md5G i) 0)
  (st.2.2.2, w32 (st.2.1 + rotl32 f (md5S.getD i 0)), st.2.1, st.2.2.1)

/-- Process one 16-word chunk. -/
def md5Chunk (st : Nat × Nat × Nat × Nat) (M : List Nat) :
    Nat × Nat × Nat × Nat :=
  let r := (List.range 64).foldl (md5Round M) st
  (w32 (st.1 + r.1), w32 (st.2.1 + r.2.1),
   w32 (st.2.2.1 + r.2.2.1), w32 (st.2.2.2 + r.2.2.2))

/-- Little-endian 4-byte word at the head of a byte list. -/
def leWord (bs : List Nat) : Nat :=
  bs.getD 0 0 + 256 * bs.getD 1 0 + 65536 * bs.getD 2 0 + 16777216 * bs.getD 3 0

/-- 8 little-endian bytes of the 64-bit message bit length. -/
def le8bytes (n : Nat) : List Nat :=
  [n % 256, n / 256 % 256, n / 65536 % 256, n / 16777216 % 256,
   n / 4294967296 % 256, n / 1099511627776 % 256,
   n / 281474976710656 % 256, n / 72057594037927936 % 256]

/-- MD5 padding: append `0x80`, zero-fill to 56 mod 64, append the 64-bit
little-endian bit length. -/
def md5Pad (msg : List Nat) : List Nat :=
  msg ++ [0x80] ++ List.replicate ((119 - msg.length % 64) % 64) 0
    ++ le8bytes (8 * msg.length)

/-- Split the padded message into 16-word little-endian blocks. -/
def md5Blocks (padded : List Nat) : List (List Nat) :=
  (List.range (padded.length / 64)).map fun i =>
    (List.range 16).map fun j => leWord ((padded.drop (64 * i + 4 * j)).take 4)

def md5Init : Nat × Nat × Nat × Nat :=
  (0x67452301, 0xefcdab89, 0x98badcfe, 0x10325476)

/-- The 16-byte MD5 digest of a byte list. -/
def md5Bytes (msg : List Nat) : List Nat :=
  let fin := (md5Blocks (md5Pad msg)).foldl md5Chunk md5Init
  le32 fin.1 ++ le32 fin.2.1 ++ le32 fin.2.2.1 ++ le32 fin.2.2.2

set_option maxRecDepth 4096

/-- The fixed 62-character alphabet of `_sofia_hash`. -/
def sofiaChars : List Char :=
  "0123456789ABCDEFGHIJKLMNOPQRSTUVWXYZabcdefghijklmnopqrstuvwxyz".toList

/-- UTF-8 encoding of the password (`password.encode("utf-8")`). -/
def utf8Bytes (s : String) : List Nat := s.toUTF8.data.toList.map UInt8.toNat

/-- Python slice `l[0::2]` (even-indexed elements); `l[1::2]` is
`everyOther l.tail`. -/
def everyOther : List Nat → List Nat
  | [] => []
  | [a] => [a]
  | a :: _ :: rest => a :: everyOther rest

/-- `_sofia_hash`: MD5 the UTF-8 password, then map byte pairs
`(digest[0::2], digest[1::2])` through the alphabet by
`chars[(a + b) % 62]`. -/
def _sofia_hash (password : String) : String :=
  let digest := md5Bytes (utf8Bytes password)
  ⟨((everyOther digest).zip (everyOther digest.tail)).map fun ab =>
      sofiaChars.getD ((ab.1 + ab.2) % 62) '0'⟩

/-! ### Tagged-block demuxer (src/alarm_photo_extractor.py, lines 79-131)

`_extract_media_from_1426` scans the downloaded 1426 payload for 4-byte
big-endian block tags, strips the per-tag sub-headers, and appends each
block's payload bytes to the output.  Unrecognized tags resynchronize one
byte at a time (the consumed bytes are *not* copied to the output).  The
loop is modelled with an explicit recursion budget: the cursor advances by
at least one byte per iteration, so `s.length + 1` steps always suffice
and the budget is never the reason the loop stops. -/

/-- Big-endian 4-byte tag at offset `c` (`struct.unpack(">I", ...)`). -/
def be32 (s : List Nat) (c : Nat) : Nat :=
  s.getD c 0 * 16777216 + s.getD (c + 1) 0 * 65536
    + s.getD (c + 2) 0 * 256 + s.getD (c + 3) 0

/-- The payload-consuming tail of one loop iteration:
`take = min(remain, len(stream) - cursor)`; `take <= 0` breaks the loop
(`none`), otherwise the bytes are appended and the cursor advances. -/
def takeBlock (s : List Nat) (c2 r : Nat) (out : List Nat) :
    Option (Nat × Nat × List Nat) :=
  let t := min r (s.length - c2)
  if t = 0 then none
  else some (c2 + t, r - t, out ++ (s.drop c2).take t)

/-- The scan loop of `_extract_media_from_1426`.  States mirror the
Python variables `(cursor, remain, out)`. -/
def demuxLoop (s : List Nat) : Nat → Nat → Nat → List Nat → List Nat
  | 0, _, _, out => out
  | fuel + 1, cursor, remain, out =>
    if cursor < s.length then
      if remain = 0 then
        if cursor + 4 ≤ s.length then
          let dtype := be32 s cursor
          if dtype = 0x1FC ∨ dtype = 0x1FE then
            if cursor + 16 ≤ s.length then
              match takeBlock s (cursor + 16) (rdLE s (cursor + 12) 4) out with
              | none => out
              | some (c2, r2, o2) => demuxLoop s fuel c2 r2 o2
            else out
          else if dtype = 0x1FD then
            if cursor + 8 ≤ s.length then
              match takeBlock s (cursor + 8) (rdLE s (cursor + 4) 4) out with
              | none => out
              | some (c2, r2, o2) => demuxLoop s fuel c2 r2 o2
            else out
          else if dtype = 0x1FA ∨ dtype = 0x1F9 then
            if cursor + 8 ≤ s.length then
              match takeBlock s (cursor + 8) (rdLE s (cursor + 6) 2) out with
              | none => out
              | some (c2, r2, o2) => demuxLoop s fuel c2 r2 o2
            else out
          else if dtype = 0xFFD8FFE0 then
            demuxLoop s fuel (cursor + 4) 0 (out ++ [0xFF, 0xD8, 0xFF, 0xE0])
          else demuxLoop s fuel (cursor + 1) 0 out
        else out
      else
        match takeBlock s cursor remain out with
        | none => out
        | some (c2, r2, o2) => demuxLoop s fuel c2 r2 o2
    else out

def _extract_media_from_1426 (s : List Nat) : List Nat :=
  demuxLoop s (s.length + 1) 0 0 []

/-- `s` contains no recognized block tag and no JPEG-SOI dword at any
window the scan can inspect. -/
def noKnownTag (s : List Nat) : Prop :=
  ∀ c < s.length, c + 4 ≤ s.length →
    be32 s c ≠ 0x1FC ∧ be32 s c ≠ 0x1FE ∧ be32 s c ≠ 0x1FD
    ∧ be32 s c ≠ 0x1FA ∧ be32 s c ≠ 0x1F9 ∧ be32 s c ≠ 0xFFD8FFE0

instance (s : List Nat) : Decidable (noKnownTag s) := by
  unfold noKnownTag
  infer_instance

/-- Concrete input for the C8 counterexample: one video block
(tag `0x1FC`, declared payload length 4) whose payload `"abcd"` contains
no recognized tag. -/
def demuxCexInput : List Nat :=
  [0x00, 0x00, 0x01, 0xFC, 0, 0, 0, 0, 0, 0, 0, 0, 4, 0, 0, 0,
   0x61, 0x62, 0x63, 0x64]

/-- Concrete input for the C10 witness: a zero-length `0x1FC` block with
two unconsumed trailing bytes. -/
def zeroLenInput : List Nat :=
  [0x00, 0x00, 0x01, 0xFC, 0, 0, 0, 0, 0, 0, 0, 0, 0, 0, 0, 0, 0xAB, 0xCD]

/-! ### Poll-loop dispatch (src/alarm_polling.py, lines 76-159)

`alarm_poll_loop` diffs each fetch against the shared known-file set under
`store_lock` and dispatches one extraction job per new marker.  The
critical section (check membership, insert, collect) is sequential under
the lock, so it is modelled as a pure fold; successive poll cycles thread
the updated known set. -/

structure PRow where
  fileName : String
  beginTime : String
deriving DecidableEq, Repr

/-- One step of the critical section: skip empty file names, skip known
ones, otherwise insert into the known set and collect as a new marker. -/
def pollStep (acc : List String × List PRow) (r : PRow) : List String × List PRow :=
  if r.fileName = "" then acc
  else if r.fileName ∈ acc.1 then acc
  else (r.fileName :: acc.1, acc.2 ++ [r])

/-- The whole critical section of one poll cycle, before any job is
submitted: returns the updated known set and the new markers. -/
def pollCycleNew (known : List String) (rows : List PRow) :
    List String × List PRow :=
  rows.foldl pollStep (known, [])

/-- `new_markers.sort(key=lambda x: str(x.get("BeginTime", "")))` —
process oldest to newest. -/
def sortByBegin (l : List PRow) : List PRow :=
  l.mergeSort fun a b => decide (a.beginTime ≤ b.beginTime)

/-- Successive poll cycles: each cycle dispatches one job per new marker
(in begin-time order) and carries the updated known set forward. -/
def pollRounds (known : List String) : List (List PRow) → List PRow
  | [] => []
  | rows :: rest =>
    sortByBegin (pollCycleNew known rows).2
      ++ pollRounds (pollCycleNew known rows).1 rest

/-! ## Theorems -/

/-- C1: when the photo-marker tier decodes a frame whose bottom-white ratio
is at least the threshold and the motion fallback tier yields no decoded
frame, `extract_alarm_photo_hybrid` still returns that JPEG with
`ok = true`, `reason = "ok_but_bottom_white"`, `chosen = "idea1"`; and the
`"no_photo"` failure (with no image) occurs only when neither tier decoded
a frame. -/
theorem hybrid_returns_corrupted_photo_when_fallback_empty
    (j : List Nat) (r thr : ℚ) (i m : Option (List Nat)) (b : Option ℚ)
    (h : thr ≤ r) :
    hybridDecision (some j) (some r) none thr
      = (some j, ⟨true, "ok_but_bottom_white", some "idea1"⟩)
    ∧ ((hybridDecision i b m thr).2.reason = "no_photo" →
        i = none ∧ m = none ∧ (hybridDecision i b m thr).1 = none) := by
  constructor
  · have ha : acceptIdea1 (some j) (some r) thr = false := by
      simp only [acceptIdea1, decide_eq_false_iff_not]
      exact not_lt.mpr h
    simp [hybridDecision, ha]
  · intro hr
    by_cases ha : acceptIdea1 i b thr
    · simp only [hybridDecision, if_pos ha] at hr
      exact absurd hr (by decide)
    · rcases m with _ | m'
      · rcases i with _ | j'
        · exact ⟨rfl, rfl, by simp [hybridDecision, ha]⟩
        · simp only [hybridDecision, if_neg ha] at hr
          exact absurd hr (by decide)
      · simp only [hybridDecision, if_neg ha] at hr
        exact absurd hr (by decide)

/-- Witness for C1 at the spec scenario values: ratio 0.40 against
threshold 0.25, fallback tier empty. -/
theorem hybrid_returns_corrupted_photo_when_fallback_empty_witness :
    hybridDecision (some [1]) (some (2/5 : ℚ)) none (1/4)
      = (some [1], ⟨true, "ok_but_bottom_white", some "idea1"⟩) :=
  (hybrid_returns_corrupted_photo_when_fallback_empty [1] (2/5) (1/4)
    none none none (by norm_num)).1

/-- C3 counterexample: with `download_retries = 2` the code computes
`tries = max(1, 2) = 2` and makes only two attempts, so a download that
fails on the first two attempts and would succeed on the third still
raises the last error — the caller does not receive the payload. -/
theorem download_retries_two_total_attempts_cex :
    transientOracle 1 = .error "connection reset"
    ∧ transientOracle 2 = .error "connection reset"
    ∧ transientOracle 3 = .ok [222, 173]
    ∧ _download_with_retries transientOracle 2 = .error "connection reset" :=
  ⟨rfl, rfl, rfl, rfl⟩

/-- C3 amended: `retries = 2` is a budget of 2 *total* attempts (not 2
extra attempts beyond the first).  A download succeeding on the first or
second attempt returns the payload with no error; one failing on both
attempts re-raises the last underlying error. -/
theorem download_with_retries_budget {E A : Type} (oracle : Nat → Except E A)
    (e1 e2 : E) (a : A) :
    (oracle 1 = .ok a → _download_with_retries oracle 2 = .ok a)
    ∧ (oracle 1 = .error e1 → oracle 2 = .ok a →
        _download_with_retries oracle 2 = .ok a)
    ∧ (oracle 1 = .error e1 → oracle 2 = .error e2 →
        _download_with_retries oracle 2 = .error e2) := by
  refine ⟨fun h1 => ?_, fun h1 h2 => ?_, fun h1 h2 => ?_⟩
  · simp [_download_with_retries, runAttempts, h1]
  · simp [_download_with_retries, runAttempts, h1, h2]
  · simp [_download_with_retries, runAttempts, h1, h2]

/-- Witness for C3 (amended): retries = 2, failure then success. -/
theorem download_with_retries_budget_witness :
    _download_with_retries recoverOracle 2 = .ok [1, 2, 3] :=
  (download_with_retries_budget recoverOracle "timeout" "timeout" [1, 2, 3]).2.1 rfl rfl

theorem keyLt_trans {a b c : Nat × Int} (h1 : keyLt a b) (h2 : keyLt b c) :
    keyLt a c = true := by
  simp only [keyLt, Bool.or_eq_true, Bool.and_eq_true, decide_eq_true_eq] at *
  omega

theorem keyLt_neg_trans {a b c : Nat × Int} (h1 : keyLt a b = false)
    (h2 : keyLt b c = false) : keyLt a c = false := by
  simp only [keyLt, Bool.or_eq_false_iff, Bool.and_eq_false_iff,
    decide_eq_false_iff_not, Bool.or_eq_false_iff] at *
  omega

theorem pickLoop_acc (p : String → Option Int) (target : Int) (rows : List QRow)
    (b0 : QRow) (k0 : Nat × Int) :
    pickLoop p target rows (some (b0, k0)) =
      mergeBest (b0, k0) (firstMinRow p target rows) := by
  induction rows generalizing b0 k0 with
  | nil => rfl
  | cons r rest ih =>
    simp only [pickLoop, firstMinRow]
    cases hp : p r.beginTime with
    | none => exact ih b0 k0
    | some bt =>
      simp only
      by_cases hlt : keyLt (keyOf p target bt r) k0
      · rw [if_pos hlt, ih]
        cases hrest : firstMinRow p target rest with
        | none => simp [mergeBest, challengeRow, hlt]
        | some bk =>
          obtain ⟨b, k⟩ := bk
          by_cases h2 : keyLt k (keyOf p target bt r)
          · simp [mergeBest, challengeRow, h2, keyLt_trans h2 hlt]
          · simp [mergeBest, challengeRow, h2, hlt]
      · rw [if_neg hlt, ih]
        cases hrest : firstMinRow p target rest with
        | none => simp [mergeBest, challengeRow, hlt]
        | some bk =>
          obtain ⟨b, k⟩ := bk
          by_cases h2 : keyLt k (keyOf p target bt r)
          · simp [mergeBest, challengeRow, h2]
          · have hne : keyLt k k0 = false :=
              keyLt_neg_trans (Bool.not_eq_true _ ▸ h2)
                (Bool.not_eq_true _ ▸ hlt)
            simp [mergeBest, challengeRow, h2, hlt, hne]

theorem pickLoop_none (p : String → Option Int) (target : Int) (rows : List QRow) :
    pickLoop p target rows none = firstMinRow p target rows := by
  induction rows with
  | nil => rfl
  | cons r rest ih =>
    simp only [pickLoop, firstMinRow]
    cases hp : p r.beginTime with
    | none => exact ih
    | some bt =>
      simp only [pickLoop_acc]
      cases hrest : firstMinRow p target rest with
      | none => rfl
      | some bk =>
        obtain ⟨b, k⟩ := bk
        by_cases h2 : keyLt k (keyOf p target bt r)
        · simp [mergeBest, challengeRow, h2]
        · simp [mergeBest, challengeRow, h2]

/-- C4: `_pick_closest_file` returns the first row attaining the
lexicographically minimal key `(0 if in-range else 1, |BeginTime − T|)`,
skipping rows whose `BeginTime` does not parse; any in-range key beats any
out-of-range key; and on the spec scenario (begin times 10:00:05,
10:00:09 in-range, 10:05:00, target 10:00:10) the 10:00:09 row wins. -/
theorem pick_closest_file_spec (p : String → Option Int) (rows : List QRow)
    (target bt bt' : Int) (r r' : QRow)
    (hin : (keyOf p target bt r).1 = 0) (hout : (keyOf p target bt' r').1 = 1) :
    _pick_closest_file p rows target = (firstMinRow p target rows).map Prod.fst
    ∧ keyLt (keyOf p target bt r) (keyOf p target bt' r') = true
    ∧ _pick_closest_file pScen [scenRow1, scenRow2, scenRow3] 36010 = some scenRow2 := by
  refine ⟨by rw [_pick_closest_file, pickLoop_none], ?_, by decide⟩
  simp only [keyLt, hin, hout, Bool.or_eq_true, decide_eq_true_eq]
  omega

/-- Witness for C4: an in-range key and an out-of-range key at concrete
values, and the scenario conclusion. -/
theorem pick_closest_file_spec_witness :
    _pick_closest_file pScen [scenRow1, scenRow2, scenRow3] 36010 = some scenRow2 :=
  (pick_closest_file_spec pScen [scenRow1, scenRow2, scenRow3] 36010
    36009 36300 scenRow2 scenRow3 (by decide) (by decide)).2.2

theorem dedupInto_inv (norm : List NRow) :
    ∀ (seen : List String) (collected : List NRow),
      (collected.map dedupKey).Nodup →
      (∀ r ∈ collected, dedupKey r ∈ seen) →
      ((dedupInto (seen, collected) norm).2.map dedupKey).Nodup
      ∧ ∀ r ∈ (dedupInto (seen, collected) norm).2,
          dedupKey r ∈ (dedupInto (seen, collected) norm).1 := by
  induction norm with
  | nil => exact fun seen collected h1 h2 => ⟨h1, h2⟩
  | cons r rest ih =>
    intro seen collected h1 h2
    simp only [dedupInto, List.foldl_cons] at ih ⊢
    by_cases hk : dedupKey r ∈ seen
    · rw [show dedupStep (seen, collected) r = (seen, collected) from by
        simp [dedupStep, hk]]
      exact ih seen collected h1 h2
    · rw [show dedupStep (seen, collected) r = (dedupKey r :: seen, collected ++ [r])
        from by simp [dedupStep, hk]]
      apply ih
      · simp only [List.map_append, List.map_cons, List.map_nil, List.nodup_append]
        refine ⟨h1, List.nodup_singleton _, ?_⟩
        intro x hx hx1
        simp only [List.mem_singleton] at hx1
        subst hx1
        obtain ⟨y, hy, hky⟩ := List.mem_map.mp hx
        exact hk (hky ▸ h2 y hy)
      · intro x hx
        rcases List.mem_append.mp hx with hx | hx
        · exact List.mem_cons_of_mem _ (h2 x hx)
        · simp only [List.mem_singleton] at hx
          subst hx
          exact List.mem_cons_self _ _

theorem scanStep_inv {query p oldest minChunk capGuard want st}
    (h : ScanInv st) :
    ScanInv (scanStep query p oldest minChunk capGuard want st) := by
  simp only [scanStep]
  split
  · exact h
  · exact ⟨(dedupInto_inv _ _ _ h.1 h.2).1, (dedupInto_inv _ _ _ h.1 h.2).2⟩

theorem scanLoop_inv_result (query : Int → Int → List QRow)
    (p : String → Option Int) (oldest : Int) (minChunk capGuard want : Nat)
    (hmin : 0 < minChunk) :
    ∀ (st : ScanSt) (hc : 0 < st.chunk), ScanInv st →
      ((scanLoop query p oldest minChunk capGuard want hmin st hc).1.map dedupKey).Nodup := by
  intro st hc
  induction st, hc using scanLoop.induct query p oldest minChunk capGuard want hmin with
  | case1 st hc hguard hc2 ih =>
    intro hinv
    rw [scanLoop, if_pos hguard]
    exact ih (scanStep_inv hinv)
  | case2 st hc hguard hc2 =>
    intro hinv
    rw [scanLoop, if_neg hguard]
    exact hinv.1

/-- C2: when a query returns at least `cap_guard` rows and the window is
still above the minimum width, the next iteration reuses the same cursor
end with a strictly smaller window (halved, floored at the minimum) and
consumes nothing; in every iteration the cursor end moves only backward,
and only to the begin of the window that was just queried. -/
theorem scanStep_window_shrink (query : Int → Int → List QRow)
    (p : String → Option Int) (oldest : Int) (minChunk capGuard want : Nat)
    (st : ScanSt) (_hmin : 0 < minChunk) (hc : 0 < st.chunk)
    (hcur : oldest < st.cursorEnd) :
    (capGuard ≤ (query (max oldest (st.cursorEnd - (st.chunk : Int))) st.cursorEnd).length →
      minChunk < st.chunk →
      (scanStep query p oldest minChunk capGuard want st).cursorEnd = st.cursorEnd
      ∧ (scanStep query p oldest minChunk capGuard want st).chunk
          = max minChunk (st.chunk / 2)
      ∧ (scanStep query p oldest minChunk capGuard want st).chunk < st.chunk
      ∧ minChunk ≤ (scanStep query p oldest minChunk capGuard want st).chunk
      ∧ (scanStep query p oldest minChunk capGuard want st).collected = st.collected
      ∧ (scanStep query p oldest minChunk capGuard want st).seen = st.seen)
    ∧ (scanStep query p oldest minChunk capGuard want st).cursorEnd ≤ st.cursorEnd
    ∧ ((scanStep query p oldest minChunk capGuard want st).cursorEnd = st.cursorEnd
       ∨ (scanStep query p oldest minChunk capGuard want st).cursorEnd
           = max oldest (st.cursorEnd - (st.chunk : Int))) := by
  by_cases hcap : capGuard ≤
      (query (max oldest (st.cursorEnd - (st.chunk : Int))) st.cursorEnd).length
      ∧ minChunk < st.chunk
  · have hs : scanStep query p oldest minChunk capGuard want st
        = { st with chunk := max minChunk (st.chunk / 2) } := by
      simp only [scanStep]
      rw [if_pos hcap]
    rw [hs]
    refine ⟨fun _ _ => ⟨rfl, rfl, ?_, le_max_left _ _, rfl, rfl⟩, le_refl _, Or.inl rfl⟩
    have h2 : st.chunk / 2 < st.chunk := Nat.div_lt_self hc (by omega)
    exact max_lt hcap.2 h2
  · have hs : (scanStep query p oldest minChunk capGuard want st).cursorEnd
        = max oldest (st.cursorEnd - (st.chunk : Int)) := by
      simp only [scanStep]
      rw [if_neg hcap]
    refine ⟨fun h1 h2 => absurd ⟨h1, h2⟩ hcap, ?_, Or.inr hs⟩
    rw [hs]
    exact max_le hcur.le (by omega)

/-- Witness for C2: a saturated 600 s window at cursor 1000 with
minimum 60 s retries the same cursor with a 300 s window. -/
theorem scanStep_window_shrink_witness :
    (scanStep capQuery pNone 0 60 60 30 ⟨1000, 600, [], []⟩).cursorEnd = 1000
    ∧ (scanStep capQuery pNone 0 60 60 30 ⟨1000, 600, [], []⟩).chunk = 300
    ∧ (scanStep capQuery pNone 0 60 60 30 ⟨1000, 600, [], []⟩).collected = [] := by
  have h := (scanStep_window_shrink capQuery pNone 0 60 60 30 ⟨1000, 600, [], []⟩
    (by norm_num) (by norm_num) (by norm_num)).1
    (by simp [capQuery]) (by norm_num)
  exact ⟨h.1, by rw [h.2.1]; decide, h.2.2.2.2.1⟩

/-- Postprocessing of the scan result: sorting descending by parsed time
and truncating to `want` preserves key-nodup and yields the claimed output
shape. -/
theorem postprocess_output (l : List NRow) (want : Nat)
    (h : (l.map dedupKey).Nodup) :
    ((l.mergeSort descDt).take want).Pairwise
        (fun a b => ¬(a.fileName = b.fileName ∧ a.beginTime = b.beginTime))
    ∧ ((l.mergeSort descDt).take want).Pairwise (fun a b => b.dt ≤ a.dt)
    ∧ ((l.mergeSort descDt).take want).length ≤ want := by
  refine ⟨?_, ?_, List.length_take_le _ _⟩
  · have hperm : List.Perm ((l.mergeSort descDt).map dedupKey) (l.map dedupKey) :=
      (List.mergeSort_perm l descDt).map dedupKey
    have h2 : ((l.mergeSort descDt).map dedupKey).Nodup := hperm.nodup_iff.mpr h
    have h3 : (((l.mergeSort descDt).take want).map dedupKey).Nodup :=
      h2.sublist ((List.take_sublist _ _).map _)
    have h4 := List.pairwise_map.mp h3
    exact h4.imp fun hne hab => hne (by rw [dedupKey, dedupKey, hab.1, hab.2])
  · have hs : (l.mergeSort descDt).Pairwise (fun a b => descDt a b = true) := by
      apply List.sorted_mergeSort
      · intro a b c hab hbc
        simp only [descDt, decide_eq_true_eq] at *
        omega
      · intro a b
        simp only [descDt, Bool.or_eq_true, decide_eq_true_eq]
        omega
    have hs2 := hs.imp fun hab => by
      simpa [descDt, decide_eq_true_eq] using hab
    exact hs2.sublist (List.take_sublist _ _)

/-- C5: for every sequence of index-query responses, the list returned by
`fetch_recent_alarm_markers` has no two rows with the same
(FileName, BeginTime) pair, is sorted descending by parsed begin time, and
has length at most the requested `want`. -/
theorem fetch_recent_alarm_markers_output (query : Int → Int → List QRow)
    (p : String → Option Int) (end_dt : Int)
    (want lookbackH initMin minSec capG : Nat) :
    (fetch_recent_alarm_markers query p end_dt want lookbackH initMin minSec capG).Pairwise
        (fun a b => ¬(a.fileName = b.fileName ∧ a.beginTime = b.beginTime))
    ∧ (fetch_recent_alarm_markers query p end_dt want lookbackH initMin minSec capG).Pairwise
        (fun a b => b.dt ≤ a.dt)
    ∧ (fetch_recent_alarm_markers query p end_dt want lookbackH initMin minSec capG).length
        ≤ want := by
  simp only [fetch_recent_alarm_markers]
  exact postprocess_output _ _
    (scanLoop_inv_result _ _ _ _ _ _ _ _ _ ⟨List.nodup_nil, by simp⟩)

/-- C6 counterexample: the newer tagged header is not 16 bytes — packing
it for concrete field values yields 20 bytes. -/
theorem hdr_new_is_not_16_bytes_cex :
    (hdrNewPack 0xFF 0 0 0 0 0 1426 0).length = 20
    ∧ (hdrNewPack 0xFF 0 0 0 0 0 1426 0).length ≠ 16 := by
  decide

/-- C6 amended: both wire headers are exactly 20 bytes (the legacy
`BB2xII2xHI` layout and the newer `<BBxxIIBBHI` layout), and each decoder
consumes exactly its fixed 20-byte header plus `payload length` more
bytes, leaving the rest of the input untouched. -/
theorem wire_header_sizes (magic res ver session seq b1 b2 msgid plen : Nat)
    (inOld inNew : List Nat) (mOld : OldMsg) (pNew : NewPkt)
    (restOld restNew : List Nat)
    (hOld : _recv_old_json inOld = some (mOld, restOld))
    (hNew : _recv_new_packet inNew = some (pNew, restNew)) :
    (hdrOldPack magic res session seq msgid plen).length = 20
    ∧ (hdrNewPack magic ver session seq b1 b2 msgid plen).length = 20
    ∧ restOld = inOld.drop (20 + mOld.len)
    ∧ inOld.length = 20 + mOld.len + restOld.length
    ∧ mOld.raw.length = mOld.len
    ∧ restNew = inNew.drop (20 + pNew.len)
    ∧ inNew.length = 20 + pNew.len + restNew.length
    ∧ pNew.payload.length = pNew.len := by
  simp only [_recv_old_json] at hOld
  simp only [_recv_new_packet] at hNew
  split at hOld
  case isFalse => simp at hOld
  case isTrue h1 =>
    split at hOld
    case isFalse => simp at hOld
    case isTrue h2 =>
      simp only [Option.some.injEq, Prod.mk.injEq] at hOld
      obtain ⟨hm, hr⟩ := hOld
      split at hNew
      case isFalse => simp at hNew
      case isTrue h3 =>
        split at hNew
        case isFalse => simp at hNew
        case isTrue h4 =>
          split at hNew
          case isFalse => simp at hNew
          case isTrue h5 =>
            simp only [Option.some.injEq, Prod.mk.injEq] at hNew
            obtain ⟨hn, hr2⟩ := hNew
            subst hm hr hn hr2
            refine ⟨by simp [hdrOldPack, le32, le16], by simp [hdrNewPack, le32, le16],
              rfl, ?_, ?_, rfl, ?_, ?_⟩
            · simp only [List.length_drop]
              omega
            · simp only [List.length_take, List.length_drop]
              omega
            · simp only [List.length_drop]
              omega
            · simp only [List.length_take, List.length_drop]
              omega

/-- Witness for C6 (amended): a concrete 22-byte old-format exchange and
a concrete 20-byte new-format packet. -/
theorem wire_header_sizes_witness :
    _recv_old_json (hdrOldPack 0xFF 0 5 1 1000 2 ++ [10, 0])
      = some ({ sess := 5, seq := 1, msgid := 1000, len := 2, raw := [10, 0] }, [])
    ∧ (hdrOldPack 0xFF 0 5 1 1000 2).length = 20
    ∧ (hdrNewPack 0xFF 1 5 1 0 1 1426 0).length = 20 := by
  have h := wire_header_sizes 0xFF 0 1 5 1 0 1 1000 2
    (hdrOldPack 0xFF 0 5 1 1000 2 ++ [10, 0]) (hdrNewPack 0xFF 1 5 1 0 1 1426 0)
    ({ sess := 5, seq := 1, msgid := 1000, len := 2, raw := [10, 0] })
    ({ ver := 1, sess := 5, seq := 1, b1 := 0, b2 := 1, msgid := 1426, len := 0,
       payload := [] }) [] [] (by decide) (by decide)
  exact ⟨by decide, h.1, h.2.1⟩

/-- RFC 1321 test vector: MD5 of the empty message. -/
theorem md5Bytes_empty_vector :
    md5Bytes [] = [0xd4, 0x1d, 0x8c, 0xd9, 0x8f, 0x00, 0xb2, 0x04,
                   0xe9, 0x80, 0x09, 0x98, 0xec, 0xf8, 0x42, 0x7e] := by
  decide

/-- RFC 1321 test vector: MD5 of `"abc"`. -/
theorem md5Bytes_abc_vector :
    md5Bytes [0x61, 0x62, 0x63]
      = [0x90, 0x01, 0x50, 0x98, 0x3c, 0xd2, 0x4f, 0xb0,
         0xd6, 0x96, 0x3f, 0x7d, 0x28, 0xe1, 0x7f, 0x72] := by
  decide

theorem md5Bytes_length (msg : List Nat) : (md5Bytes msg).length = 16 := by
  simp [md5Bytes, le32]

theorem everyOther_length (l : List Nat) :
    (everyOther l).length = (l.length + 1) / 2 := by
  induction l using everyOther.induct with
  | case1 => rfl
  | case2 a => simp [everyOther]
  | case3 a b rest ih =>
    simp only [everyOther, List.length_cons, ih]
    omega

/-- C7: the login hash is deterministic, equals the byte-pair derivation
from the MD5 digest of the UTF-8 password, has the same fixed length
(8 characters) for every input, and draws every character from the fixed
62-character alphabet. -/
theorem sofia_hash_spec (p1 p2 : String) (h : p1 = p2) :
    _sofia_hash p1 = _sofia_hash p2
    ∧ (_sofia_hash p1).length = 8
    ∧ (∀ c ∈ (_sofia_hash p1).data, c ∈ sofiaChars)
    ∧ _sofia_hash p1 = ⟨((everyOther (md5Bytes (utf8Bytes p1))).zip
        (everyOther (md5Bytes (utf8Bytes p1)).tail)).map fun ab =>
          sofiaChars.getD ((ab.1 + ab.2) % 62) '0'⟩ := by
  refine ⟨h ▸ rfl, ?_, ?_, rfl⟩
  · simp only [_sofia_hash, String.length, List.length_map, List.length_zip,
      everyOther_length, List.length_tail, md5Bytes_length]
    decide
  · intro c hc
    simp only [_sofia_hash] at hc
    obtain ⟨ab, hab, hc⟩ := List.mem_map.mp hc
    have hidx : (ab.1 + ab.2) % 62 < sofiaChars.length := by
      have h62 : sofiaChars.length = 62 := by decide
      rw [h62]
      exact Nat.mod_lt _ (by norm_num)
    rw [← hc, List.getD_eq_getElem _ _ hidx]
    exact List.getElem_mem _

theorem demuxLoop_no_tag (s : List Nat) (h : noKnownTag s) :
    ∀ (fuel cursor : Nat) (out : List Nat), demuxLoop s fuel cursor 0 out = out := by
  intro fuel
  induction fuel with
  | zero => intro cursor out; rfl
  | succ f ih =>
    intro cursor out
    simp only [demuxLoop]
    by_cases hcur : cursor < s.length
    · rw [if_pos hcur]
      simp only [if_true]
      by_cases h4 : cursor + 4 ≤ s.length
      · rw [if_pos h4]
        obtain ⟨t1, t2, t3, t4, t5, t6⟩ := h cursor hcur h4
        rw [if_neg (by simp [t1, t2]), if_neg t3, if_neg (by simp [t4, t5]),
          if_neg t6]
        exact ih (cursor + 1) out
      · rw [if_neg h4]
    · rw [if_neg hcur]

/-- C8 counterexample: the demuxer is not idempotent.  Demuxing
`demuxCexInput` yields the elementary bytes `"abcd"`, and demuxing that
output again yields the empty stream — not the output unchanged. -/
theorem demux_idempotent_cex :
    _extract_media_from_1426 demuxCexInput = [0x61, 0x62, 0x63, 0x64]
    ∧ _extract_media_from_1426 (_extract_media_from_1426 demuxCexInput)
        ≠ _extract_media_from_1426 demuxCexInput := by
  decide

/-- C8 amended: re-running the demuxer on its own output is *not* a
pass-through: whenever the output looks elementary in the sense that it
contains no recognized block tag (and no JPEG-SOI dword), demuxing it
again erases it entirely, returning the empty stream.  Output bytes
survive a second pass only by re-parsing as recognized blocks. -/
theorem demux_on_elementary_output_is_empty (x : List Nat)
    (h : noKnownTag (_extract_media_from_1426 x)) :
    _extract_media_from_1426 (_extract_media_from_1426 x) = [] :=
  demuxLoop_no_tag _ h _ _ _

/-- Witness for C8 (amended) at the counterexample input. -/
theorem demux_on_elementary_output_is_empty_witness :
    _extract_media_from_1426 (_extract_media_from_1426 demuxCexInput) = [] :=
  demux_on_elementary_output_is_empty demuxCexInput (by decide)

/-- C10: when the scan parses a recognized tag (video `0x1FC`/`0x1FE`,
audio `0x1FD`, auxiliary `0x1F9`/`0x1FA`) whose sub-header declares a
zero payload length while unconsumed bytes remain, the loop stops at that
point and returns exactly the output accumulated so far; the remaining
bytes are never scanned (the result does not depend on them). -/
theorem demux_zero_length_block_terminates (s : List Nat)
    (fuel cursor : Nat) (out : List Nat) (hf : 0 < fuel)
    (hcur : cursor < s.length)
    (hdr : (be32 s cursor = 0x1FC ∨ be32 s cursor = 0x1FE)
             ∧ cursor + 16 < s.length ∧ rdLE s (cursor + 12) 4 = 0
         ∨ be32 s cursor = 0x1FD
             ∧ cursor + 8 < s.length ∧ rdLE s (cursor + 4) 4 = 0
         ∨ (be32 s cursor = 0x1FA ∨ be32 s cursor = 0x1F9)
             ∧ cursor + 8 < s.length ∧ rdLE s (cursor + 6) 2 = 0) :
    demuxLoop s fuel cursor 0 out = out := by
  obtain ⟨f, rfl⟩ : ∃ f, fuel = f + 1 := ⟨fuel - 1, by omega⟩
  simp only [demuxLoop]
  rw [if_pos hcur]
  simp only [if_true]
  rw [if_pos (by omega :  cursor + 4 ≤ s.length)]
  rcases hdr with ⟨htag, hle, hzero⟩ | ⟨htag, hle, hzero⟩ | ⟨htag, hle, hzero⟩
  · rw [if_pos htag, if_pos hle.le]
    simp [takeBlock, hzero]
  · rw [if_neg (by rw [htag]; decide), if_pos htag, if_pos hle.le]
    simp [takeBlock, hzero]
  · rw [if_neg (by rcases htag with h1 | h1 <;> rw [h1] <;> decide),
      if_neg (by rcases htag with h1 | h1 <;> rw [h1] <;> decide),
      if_pos htag, if_pos hle.le]
    simp [takeBlock, hzero]

/-- Witness for C10: the demuxer returns the (empty) accumulated output
and never scans the trailing bytes. -/
theorem demux_zero_length_block_terminates_witness :
    _extract_media_from_1426 zeroLenInput = [] :=
  demux_zero_length_block_terminates zeroLenInput (zeroLenInput.length + 1) 0 []
    (by decide) (by decide) (Or.inl ⟨Or.inl (by decide), by decide, by decide⟩)

/-- Witness for C7 at a concrete password. -/
theorem sofia_hash_spec_witness :
    _sofia_hash "admin" = _sofia_hash "admin"
    ∧ (_sofia_hash "admin").length = 8 :=
  ⟨(sofia_hash_spec "admin" "admin" rfl).1, (sofia_hash_spec "admin" "admin" rfl).2.1⟩

theorem pollFold (rows : List PRow) :
    ∀ (k : List String) (ns : List PRow),
      (ns.map PRow.fileName).Nodup →
      (∀ r ∈ ns, r.fileName ∈ k) →
      (∀ r ∈ ns, r.fileName ≠ "") →
      ((rows.foldl pollStep (k, ns)).2.map PRow.fileName).Nodup
      ∧ (∀ r ∈ (rows.foldl pollStep (k, ns)).2,
          r.fileName ∈ (rows.foldl pollStep (k, ns)).1)
      ∧ (∀ r ∈ (rows.foldl pollStep (k, ns)).2, r.fileName ≠ "")
      ∧ (∀ f ∈ k, f ∈ (rows.foldl pollStep (k, ns)).1)
      ∧ (∀ r ∈ (rows.foldl pollStep (k, ns)).2, r ∈ ns ∨ r.fileName ∉ k) := by
  induction rows with
  | nil =>
    intro k ns h1 h2 h3
    exact ⟨h1, h2, h3, fun f hf => hf, fun r hr => Or.inl hr⟩
  | cons r rows ih =>
    intro k ns h1 h2 h3
    simp only [List.foldl_cons]
    by_cases he : r.fileName = ""
    · rw [show pollStep (k, ns) r = (k, ns) from by simp [pollStep, he]]
      exact ih k ns h1 h2 h3
    · by_cases hk : r.fileName ∈ k
      · rw [show pollStep (k, ns) r = (k, ns) from by simp [pollStep, he, hk]]
        exact ih k ns h1 h2 h3
      · rw [show pollStep (k, ns) r = (r.fileName :: k, ns ++ [r]) from by
          simp [pollStep, he, hk]]
        have h1a : ((ns ++ [r]).map PRow.fileName).Nodup := by
          simp only [List.map_append, List.map_cons, List.map_nil,
            List.nodup_append]
          refine ⟨h1, List.nodup_singleton _, ?_⟩
          intro f hf hf1
          simp only [List.mem_singleton] at hf1
          subst hf1
          obtain ⟨y, hy, hky⟩ := List.mem_map.mp hf
          exact hk (hky ▸ h2 y hy)
        have h2a : ∀ x ∈ ns ++ [r], x.fileName ∈ r.fileName :: k := by
          intro x hx
          rcases List.mem_append.mp hx with hx | hx
          · exact List.mem_cons_of_mem _ (h2 x hx)
          · simp only [List.mem_singleton] at hx
            subst hx
            exact List.mem_cons_self _ _
        have h3a : ∀ x ∈ ns ++ [r], x.fileName ≠ "" := by
          intro x hx
          rcases List.mem_append.mp hx with hx | hx
          · exact h3 x hx
          · simp only [List.mem_singleton] at hx
            subst hx
            exact he
        obtain ⟨g1, g2, g3, g4, g5⟩ := ih (r.fileName :: k) (ns ++ [r]) h1a h2a h3a
        refine ⟨g1, g2, g3, fun f hf => g4 f (List.mem_cons_of_mem _ hf), ?_⟩
        intro x hx
        rcases g5 x hx with hx2 | hx2
        · rcases List.mem_append.mp hx2 with hx3 | hx3
          · exact Or.inl hx3
          · simp only [List.mem_singleton] at hx3
            subst hx3
            exact Or.inr hk
        · exact Or.inr fun hxk => hx2 (List.mem_cons_of_mem _ hxk)

theorem pollCycleNew_spec (known : List String) (rows : List PRow) :
    ((pollCycleNew known rows).2.map PRow.fileName).Nodup
    ∧ (∀ r ∈ (pollCycleNew known rows).2,
        r.fileName ∉ known ∧ r.fileName ≠ ""
        ∧ r.fileName ∈ (pollCycleNew known rows).1)
    ∧ (∀ f ∈ known, f ∈ (pollCycleNew known rows).1) := by
  obtain ⟨g1, g2, g3, g4, g5⟩ := pollFold rows known []
    List.nodup_nil (by simp) (by simp)
  refine ⟨g1, fun r hr => ⟨?_, g3 r hr, g2 r hr⟩, g4⟩
  rcases g5 r hr with h | h
  · simp at h
  · exact h

theorem pollRounds_no_double (cycles : List (List PRow)) :
    ∀ known : List String,
      ((pollRounds known cycles).map PRow.fileName).Nodup
      ∧ ∀ r ∈ pollRounds known cycles, r.fileName ∉ known ∧ r.fileName ≠ "" := by
  induction cycles with
  | nil => intro known; simp [pollRounds]
  | cons rows rest ih =>
    intro known
    obtain ⟨hnd, hnew, hgrow⟩ := pollCycleNew_spec known rows
    obtain ⟨ihnd, ihmem⟩ := ih (pollCycleNew known rows).1
    have hperm : List.Perm (sortByBegin (pollCycleNew known rows).2)
        (pollCycleNew known rows).2 := List.mergeSort_perm _ _
    constructor
    · simp only [pollRounds, List.map_append, List.nodup_append]
      refine ⟨((hperm.map _).nodup_iff).mpr hnd, ihnd, ?_⟩
      intro f hf1 hf2
      obtain ⟨x, hx, hfx⟩ := List.mem_map.mp hf1
      obtain ⟨y, hy, hfy⟩ := List.mem_map.mp hf2
      have hx2 := hperm.mem_iff.mp hx
      have hxk : f ∈ (pollCycleNew known rows).1 := hfx ▸ (hnew x hx2).2.2
      exact (ihmem y hy).1 (hfy ▸ hxk)
    · intro r hr
      rcases List.mem_append.mp (by simpa [pollRounds] using hr) with hr2 | hr2
      · have hr3 := hperm.mem_iff.mp hr2
        exact ⟨(hnew r hr3).1, (hnew r hr3).2.1⟩
      · refine ⟨fun hk => (ihmem r hr2).1 (hgrow _ hk), (ihmem r hr2).2⟩

/-- C9: across all poll cycles, at most one extraction job is ever
scheduled per marker FileName — the known-file set is checked and
inserted in one critical section before any job is submitted, so a row
whose FileName is already known (from seeding or an earlier cycle) is
never dispatched, and no FileName is dispatched twice. -/
theorem poll_loop_single_dispatch (known : List String)
    (cycles : List (List PRow)) :
    ((pollRounds known cycles).map PRow.fileName).Nodup
    ∧ ∀ r ∈ pollRounds known cycles, r.fileName ∉ known :=
  ⟨(pollRounds_no_double cycles known).1,
    fun r hr => ((pollRounds_no_double cycles known).2 r hr).1⟩

end IpCam
